import Mathlib

/-!
Shallow embedding of `src/library_management.py`, a single-file library
catalog manager.  Python strings are modelled as `List Char` (`Str`),
Python integers as `Int`, and the backing file as `Option Str`
(`none` = the file does not exist).  Interactive `input()` handling is the
menu shell's job; each operation below takes the already-collected
arguments, mirroring the body of the corresponding method after its
`input(...)` lines.
-/

namespace LibraryApp

/-- Python strings, modelled as lists of characters. -/
abbrev Str := List Char

/-- The characters removed by Python `str.strip()` (ASCII whitespace;
Python additionally strips some rarer Unicode whitespace, which no string
produced by this program contains). -/
def isWs (c : Char) : Bool :=
  c = ' ' || c = '\t' || c = '\n' || c = '\r' || c = '\x0b' || c = '\x0c'

/-- Removes a maximal whitespace suffix. -/
def stripRight (s : Str) : Str :=
  (s.reverse.dropWhile isWs).reverse

/-- Python `str.strip()`: removes whitespace from both ends. -/
def pyStrip (s : Str) : Str :=
  stripRight (s.dropWhile isWs)

/-- Python `str.split(sep)` for a one-character separator: `n` occurrences
of the separator yield `n + 1` parts. -/
def pySplit (sep : Char) : Str → List Str
  | [] => [[]]
  | c :: cs =>
    match pySplit sep cs with
    | [] => [[]]        -- unreachable: `pySplit` never returns `[]`
    | p :: ps => if c = sep then [] :: p :: ps else (c :: p) :: ps

/-- Decimal digits, fuel-bounded so the recursion is structural (`fuel > n`
always suffices, see `natDigits_eq`). -/
def natDigitsAux : Nat → Nat → Str
  | 0, _ => []        -- unreachable with enough fuel
  | fuel + 1, n =>
    if n < 10 then [Char.ofNat ('0'.toNat + n)]
    else natDigitsAux fuel (n / 10) ++ [Char.ofNat ('0'.toNat + n % 10)]

/-- Decimal digits of a natural number, most significant first: the digits
of Python `str(n)` for `n ≥ 0`. -/
def natDigits (n : Nat) : Str := natDigitsAux (n + 1) n

/-- Python `str(i)` for an `int`: decimal digits, `-` sign when negative. -/
def intRepr (i : Int) : Str :=
  if i < 0 then '-' :: natDigits i.natAbs else natDigits i.toNat

/-- ASCII decimal digit test. -/
def isDigit (c : Char) : Bool :=
  decide ('0' ≤ c) && decide (c ≤ '9')

/-- Continuation of a digit run in Python's `int()` grammar: after a digit,
either another digit or a single underscore followed by a digit. -/
def digRest : Str → Bool
  | [] => true
  | c :: cs =>
    if c = '_' then
      match cs with
      | [] => false
      | c2 :: cs2 => isDigit c2 && digRest cs2
    else isDigit c && digRest cs

/-- A nonempty run of decimal digits with optional single underscores
between digits, as Python's `int()` accepts after the optional sign. -/
def digRun : Str → Bool
  | [] => false
  | c :: cs => isDigit c && digRest cs

/-- Numeric value of a digit run (underscores skipped). -/
def digValue (s : Str) : Nat :=
  s.foldl (fun a c => if c = '_' then a else a * 10 + (c.toNat - '0'.toNat)) 0

/-- Python `int(str)`: optional surrounding whitespace, optional sign, then
a digit run.  `none` models the `ValueError`.  (Non-ASCII digits, which
Python would also accept, are not modelled; none occur in this program.) -/
def pyInt (s : Str) : Option Int :=
  match pyStrip s with
  | [] => none
  | c :: rest =>
    if c = '-' then (if digRun rest then some (-(digValue rest : Int)) else none)
    else if c = '+' then (if digRun rest then some (digValue rest : Int) else none)
    else if digRun (c :: rest) then some (digValue (c :: rest) : Int) else none

/-- Case folding as `str.lower()` acts on the alphabets this program uses
(ASCII letters and the Cyrillic of the status labels and titles). -/
def lowerChar (c : Char) : Char :=
  if 'A' ≤ c ∧ c ≤ 'Z' then Char.ofNat (c.toNat + 32)
  else if 'А' ≤ c ∧ c ≤ 'Я' then Char.ofNat (c.toNat + 32)
  else if c = 'Ё' then 'ё'
  else c

/-- Python `str.lower()`. -/
def pyLower (s : Str) : Str := s.map lowerChar

/-- Python prefix test used to implement the `in` substring operator. -/
def hasPre : Str → Str → Bool
  | [], _ => true
  | _ :: _, [] => false
  | x :: xs, y :: ys => x == y && hasPre xs ys

/-- Python's substring operator `q in s`. -/
def containsSub (q : Str) : Str → Bool
  | [] => hasPre q []
  | s@(_ :: rest) => hasPre q s || containsSub q rest

/-- Iterating a Python text file (`for line in file`) yields its lines with
the terminating newline kept.  Only `\n` newlines arise here, because
`save_data` writes `\n`. -/
def pyLines : Str → List Str
  | [] => []
  | c :: cs =>
    if c = '\n' then ['\n'] :: pyLines cs
    else
      match pyLines cs with
      | [] => [[c]]
      | l :: ls => (c :: l) :: ls

/-- `Book` (`library_management.py` lines 1–48): one catalog record. -/
structure Book where
  id : Int
  title : Str
  author : Str
  year : Int
  status : Str
deriving DecidableEq, Repr

/-- The status label `"в наличии"` (available), the default on creation. -/
def statusAvailable : Str := "в наличии".toList

/-- The status label `"выдана"` (checked out). -/
def statusIssued : Str := "выдана".toList

/-- `Book.to_string` (line 37): `f"{id};{title};{author};{year};{status}"`. -/
def Book.to_string (b : Book) : Str :=
  intRepr b.id ++ (';' :: b.title) ++ (';' :: b.author)
    ++ (';' :: intRepr b.year) ++ (';' :: b.status)

/-- A decode failure escaping `Book.from_string`: Python's `ValueError`
(from `int`) or `IndexError` (fewer than 5 parts).  The spec groups both
under `ParseError`. -/
inductive ParseErr where
  | err
deriving DecidableEq, Repr

deriving instance DecidableEq for Except

/-- `Book.from_string` (lines 39–48): strip the line, split on `;`, parse
parts 0 and 3 as integers, take parts 1, 2, 4 as text.  Any failure of
`int(parts[0])`, the `parts[1]`…`parts[4]` lookups, or `int(parts[3])`
raises; all are collapsed into `ParseErr.err`. -/
def Book.from_string (s : Str) : Except ParseErr Book :=
  match pySplit ';' (pyStrip s) with
  | p0 :: p1 :: p2 :: p3 :: p4 :: _ =>
    match pyInt p0, pyInt p3 with
    | some i, some y => .ok ⟨i, p1, p2, y, p4⟩
    | _, _ => .error .err
  | _ => .error .err

/-- The comparison key of every `sorted(..., key=lambda b: b.id)` call. -/
def leB (a b : Book) : Prop := a.id ≤ b.id

instance : DecidableRel leB := fun a b => inferInstanceAs (Decidable (a.id ≤ b.id))

instance : IsTotal Book leB := ⟨fun a b => Int.le_total a.id b.id⟩

instance : IsTrans Book leB := ⟨fun _ _ _ h1 h2 => le_trans h1 h2⟩

/-- `sorted(books, key=lambda b: b.id)`.  Python's sort and
`List.insertionSort` are both stable, so they agree on every input. -/
def sortBooks (books : List Book) : List Book := List.insertionSort leB books

/-- The lines `save_data` (lines 106–110) writes: each record's encoding
plus a newline, in ascending-id order. -/
def saveLines (books : List Book) : List Str :=
  (sortBooks books).map (fun b => b.to_string ++ ['\n'])

/-- The whole content `save_data` leaves in the backing file. -/
def saveContent (books : List Book) : Str := (saveLines books).flatten

/-- The catalog store's state: the in-memory list plus the backing file
(`none` = the file does not exist). -/
structure LibState where
  books : List Book
  file : Option Str
deriving DecidableEq, Repr

/-- `save_data` (lines 106–110): whole-file rewrite. -/
def save_data (st : LibState) : LibState :=
  { st with file := some (saveContent st.books) }

/-- `load_data` (lines 90–104): a missing file yields `[]` (not an error);
otherwise every line of the file is decoded — a decode failure propagates —
and the collected books are sorted by id. -/
def load_data (file : Option Str) : Except ParseErr (List Book) :=
  match file with
  | none => .ok []
  | some content => do
    let books ← (pyLines content).mapM Book.from_string
    return sortBooks books

/-- The `while new_id in used_ids` loop of `generate_id`; `fuel` bounds the
iteration count (the Python loop needs no bound because `used_ids` is
finite; `books.length + 1` iterations always suffice, see
`generate_id_spec`). -/
def genLoop (used : List Int) : Nat → Int → Int
  | 0, n => n
  | fuel + 1, n => if n ∈ used then genLoop used fuel (n + 1) else n

/-- `generate_id` (lines 135–142): starting from 1, count up until an id
not in use is found. -/
def generate_id (books : List Book) : Int :=
  genLoop (books.map (·.id)) (books.length + 1) 1

/-- `add_book` (lines 112–133) after input collection: `title` and `author`
are the `input().strip()` results, and `year` has already passed the
`int(...)` validation (on a `ValueError` the method returns before touching
any state, so that path needs no modelling).  Appends, re-sorts, saves. -/
def add_book (st : LibState) (title author : Str) (year : Int) : LibState :=
  let new_book : Book := ⟨generate_id st.books, title, author, year, statusAvailable⟩
  let books := sortBooks (st.books ++ [new_book])
  save_data { st with books := books }

/-- Removal of the first book with a matching id: `next(...)` finds the
first such object and `self.books.remove(book)` removes that very object
(default object identity equality). -/
def eraseFirstId (book_id : Int) : List Book → List Book
  | [] => []
  | b :: bs => if b.id = book_id then bs else b :: eraseFirstId book_id bs

/-- `delete_book` (lines 144–164) after the id input has been parsed (a
non-integer input aborts before any state change): remove and save when
found, otherwise report not-found and leave everything unchanged. -/
def delete_book (st : LibState) (book_id : Int) : LibState :=
  match st.books.find? (fun b => b.id == book_id) with
  | none => st
  | some _ => save_data { st with books := eraseFirstId book_id st.books }

/-- The outcome `update_status` reports to the user. -/
inductive UpdOutcome where
  | notFound
  | badChoice
  | noop
  | updated
deriving DecidableEq, Repr

/-- In-place mutation `book.status = new_status` of the first book with a
matching id (the object `next(...)` found). -/
def setStatusFirst (book_id : Int) (new_status : Str) : List Book → List Book
  | [] => []
  | b :: bs =>
    if b.id = book_id then { b with status := new_status } :: bs
    else b :: setStatusFirst book_id new_status bs

/-- `update_status` (lines 198–232) after the id input has been parsed:
`choice` is the `input().strip()` menu selection.  Only choices `"1"` and
`"2"` are recognized; an equal status is reported as a no-op without
saving. -/
def update_status (st : LibState) (book_id : Int) (choice : Str) :
    LibState × UpdOutcome :=
  match st.books.find? (fun b => b.id == book_id) with
  | none => (st, .notFound)
  | some book =>
    if choice = "1".toList ∨ choice = "2".toList then
      let new_status := if choice = "1".toList then statusAvailable else statusIssued
      if book.status = new_status then (st, .noop)
      else
        (save_data { st with books := setStatusFirst book_id new_status st.books },
         .updated)
    else (st, .badChoice)

/-- `search_books` (lines 166–181) after the query has been read and
stripped (`input(...).strip()` is input collection; the `.lower()` and the
matching are the operation itself): case-insensitive substring match on
title and author, exact string match against `str(year)`. -/
def search_books (books : List Book) (query : Str) : List Book :=
  let q := pyLower query
  books.filter (fun b =>
    containsSub q (pyLower b.title) || containsSub q (pyLower b.author)
      || q == intRepr b.year)

/-- What `display_books` prints: the empty-catalog notice or a rendering of
a list of records. -/
inductive DispOut where
  | emptyNote
  | shown (books : List Book)
deriving DecidableEq, Repr

/-- `display_books` (lines 183–196): `books = books or self.books`, so an
explicitly supplied empty list falls back to the full catalog; then either
the empty notice or the rendered records. -/
def display_books (self_books : List Book) (arg : Option (List Book)) : DispOut :=
  let books :=
    match arg with
    | none => self_books
    | some bs => if bs = [] then self_books else bs
  if books = [] then .emptyNote else .shown books

/-- One mutating menu operation together with the inputs it reads. -/
inductive Op where
  | add (title author : Str) (year : Int)
  | del (book_id : Int)
  | upd (book_id : Int) (choice : Str)

/-- Dispatch of one mutating operation, as the menu loop performs it. -/
def applyOp (st : LibState) : Op → LibState
  | .add t a y => add_book st t a y
  | .del i => delete_book st i
  | .upd i c => (update_status st i c).1

/-- A fresh `Library` over a missing backing file: the empty catalog. -/
def initState : LibState := ⟨[], none⟩

/-- Runs a sequence of mutating operations from the empty catalog. -/
def runOps (ops : List Op) : LibState := ops.foldl applyOp initState

/-- `input()` returns one line of text, so collected titles and authors can
never contain a newline character. -/
def noNL (s : Str) : Bool := s.all (fun c => !(c == '\n'))

/-- The add inputs of an operation come from `input()` and are therefore
newline-free; the id and choice arguments are unconstrained. -/
def validOp : Op → Bool
  | .add t a _ => noNL t && noNL a
  | _ => true

/-- The lines of the backing file (none when the file does not exist). -/
def fileLines : Option Str → List Str
  | none => []
  | some content => pyLines content

/-- A record whose text fields contain no newline, as every record the
program itself constructs does (`input()` returns a single line, and the
two status labels are newline-free). -/
def cleanBook (b : Book) : Bool := noNL b.title && noNL b.author && noNL b.status

/-- A field with no embedded `;` delimiter ("valid" in the spec's sense). -/
def noSemi (s : Str) : Bool := s.all (fun c => !(c == ';'))

/-- A string that does not end in a whitespace character. -/
def noTrailWs (s : Str) : Bool :=
  match s.reverse with
  | [] => true
  | c :: _ => !isWs c

/-- The catalog-store invariant: in-memory records strictly ascending by id
(hence pairwise distinct), all fields newline-free, and the backing file
either still missing or exactly what the last `save_data` wrote. -/
def Inv (st : LibState) : Prop :=
  st.books.Pairwise (fun a b => a.id < b.id) ∧
  (∀ b ∈ st.books, cleanBook b = true) ∧
  (st.file = none ∨ st.file = some (saveContent st.books))

/-- A concrete operation sequence used to witness the invariant theorem. -/
def demoOps : List Op :=
  [.add "Dune".toList "Herbert".toList 1965,
   .add "Solaris".toList "Lem".toList 1961,
   .del 1,
   .upd 2 "2".toList]

/-- A catalog with ids 1, 2, 4 (the spec's minimal-id-reuse scenario). -/
def demo124 : List Book :=
  [⟨1, [], [], 0, []⟩, ⟨2, [], [], 0, []⟩, ⟨4, [], [], 0, []⟩]

/-- A catalog with ids 1, 2, 3 (the spec's minimal-id-reuse scenario). -/
def demo123 : List Book :=
  [⟨1, [], [], 0, []⟩, ⟨2, [], [], 0, []⟩, ⟨3, [], [], 0, []⟩]

/-- A concrete available book used in witnesses. -/
def demoBook : Book := ⟨1, "D".toList, "H".toList, 1965, statusAvailable⟩

/-- A one-record store used in witnesses. -/
def demoState : LibState := ⟨[demoBook], none⟩

/-- The spec's year-search scenario: one 1965 record, one 1999 record. -/
def demoSearchBooks : List Book :=
  [⟨1, "A".toList, "B".toList, 1965, statusAvailable⟩,
   ⟨2, "C".toList, "D".toList, 1999, statusAvailable⟩]

/-! ### Elementary string lemmas -/

theorem pySplit_ne_nil (sep : Char) (s : Str) : pySplit sep s ≠ [] := by
  cases s with
  | nil => simp [pySplit]
  | cons c cs =>
    simp only [pySplit]
    cases h : pySplit sep cs with
    | nil => simp
    | cons p ps => by_cases hc : c = sep <;> simp [hc]

theorem dropWhile_append_ne {p : Char → Bool} {c : Char} (hc : p c = false)
    (u v : Str) : (u ++ c :: v).dropWhile p = u.dropWhile p ++ c :: v := by
  induction u with
  | nil => simp [List.dropWhile_cons, hc]
  | cons a u ih =>
    by_cases ha : p a
    · simp [List.dropWhile_cons, ha, ih]
    · simp [List.dropWhile_cons, ha]

theorem dropWhile_append_all {p : Char → Bool} (u v : Str)
    (hu : ∀ c ∈ u, p c = true) : (u ++ v).dropWhile p = v.dropWhile p := by
  induction u with
  | nil => simp
  | cons a u ih =>
    simp [List.dropWhile_cons, hu a (by simp),
      ih (fun c hc => hu c (by simp [hc]))]

theorem dropWhile_eq_self {p : Char → Bool} (s : Str)
    (h : ∀ c ∈ s, p c = false) : s.dropWhile p = s := by
  cases s with
  | nil => rfl
  | cons a l => simp [List.dropWhile_cons, h a (by simp)]

theorem stripRight_append (x : Str) {c : Char} (hc : isWs c = false) (y : Str) :
    stripRight (x ++ c :: y) = x ++ c :: stripRight y := by
  unfold stripRight
  rw [List.reverse_append, List.reverse_cons, List.append_assoc,
    List.singleton_append, dropWhile_append_ne hc, List.reverse_append,
    List.reverse_cons, List.reverse_reverse, List.append_assoc,
    List.singleton_append]

theorem stripRight_append_ws (x suf : Str) (hsuf : ∀ c ∈ suf, isWs c = true) :
    stripRight (x ++ suf) = stripRight x := by
  unfold stripRight
  rw [List.reverse_append,
    dropWhile_append_all _ _ (fun c hc => hsuf c (List.mem_reverse.mp hc))]

theorem pyStrip_no_ws (s : Str) (h : ∀ c ∈ s, isWs c = false) : pyStrip s = s := by
  unfold pyStrip stripRight
  rw [dropWhile_eq_self s h,
    dropWhile_eq_self s.reverse (fun c hc => h c (List.mem_reverse.mp hc)),
    List.reverse_reverse]

theorem pySplit_cons_sep (sep : Char) (y : Str) :
    pySplit sep (sep :: y) = [] :: pySplit sep y := by
  simp only [pySplit]
  cases h : pySplit sep y with
  | nil => exact absurd h (pySplit_ne_nil sep y)
  | cons p ps => simp

theorem pySplit_append_sep (sep : Char) (x y : Str) (hx : ∀ c ∈ x, c ≠ sep) :
    pySplit sep (x ++ sep :: y) = x :: pySplit sep y := by
  induction x with
  | nil => simpa using pySplit_cons_sep sep y
  | cons a x ih =>
    have ha : a ≠ sep := hx a (by simp)
    have ih' := ih (fun c hc => hx c (by simp [hc]))
    simp only [List.cons_append, pySplit, List.append_eq]
    rw [ih']
    simp [ha]

theorem pySplit_no_sep (sep : Char) (x : Str) (hx : ∀ c ∈ x, c ≠ sep) :
    pySplit sep x = [x] := by
  induction x with
  | nil => rfl
  | cons a x ih =>
    have ha : a ≠ sep := hx a (by simp)
    simp only [pySplit]
    rw [ih (fun c hc => hx c (by simp [hc]))]
    simp [ha]

/-! ### Decimal digits and `pyInt ∘ intRepr` -/

theorem natDigitsAux_congr (n : Nat) : ∀ f1 f2, n < f1 → n < f2 →
    natDigitsAux f1 n = natDigitsAux f2 n := by
  induction n using Nat.strong_induction_on with
  | _ n ih =>
    intro f1 f2 h1 h2
    match f1, f2 with
    | g1 + 1, g2 + 1 =>
      simp only [natDigitsAux]
      by_cases h10 : n < 10
      · simp [h10]
      · have hdiv : n / 10 < n := Nat.div_lt_self (by omega) (by omega)
        simp only [if_neg h10]
        rw [ih (n / 10) hdiv g1 g2 (by omega) (by omega)]

theorem natDigits_eq (n : Nat) :
    natDigits n = if n < 10 then [Char.ofNat ('0'.toNat + n)]
      else natDigits (n / 10) ++ [Char.ofNat ('0'.toNat + n % 10)] := by
  show natDigitsAux (n + 1) n = _
  simp only [natDigitsAux]
  by_cases h10 : n < 10
  · simp [h10]
  · have hdiv : n / 10 < n := Nat.div_lt_self (by omega) (by omega)
    simp only [if_neg h10]
    rw [natDigitsAux_congr (n / 10) n (n / 10 + 1) (by omega) (by omega)]
    rfl

theorem digitChar_isDigit (m : Nat) (hm : m < 10) :
    isDigit (Char.ofNat ('0'.toNat + m)) = true := by
  interval_cases m <;> decide

theorem digitChar_toNat (m : Nat) (hm : m < 10) :
    (Char.ofNat ('0'.toNat + m)).toNat - '0'.toNat = m := by
  interval_cases m <;> decide

theorem isDigit_ne_of {c : Char} (h : isDigit c = true) (d : Char)
    (hd : isDigit d = false) : c ≠ d := by
  intro he
  rw [he, hd] at h
  cases h

theorem digit_not_ws {c : Char} (h : isDigit c = true) : isWs c = false := by
  by_contra hws
  rw [Bool.not_eq_false] at hws
  simp only [isWs, Bool.or_eq_true, decide_eq_true_eq] at hws
  rcases hws with ((((rfl | rfl) | rfl) | rfl) | rfl) | rfl <;> revert h <;> decide

theorem natDigits_digit (n : Nat) : ∀ c ∈ natDigits n, isDigit c = true := by
  induction n using Nat.strong_induction_on with
  | _ n ih =>
    rw [natDigits_eq]
    by_cases h10 : n < 10
    · simp only [if_pos h10, List.mem_singleton]
      rintro c rfl
      exact digitChar_isDigit n h10
    · have hdiv : n / 10 < n := Nat.div_lt_self (by omega) (by omega)
      simp only [if_neg h10, List.mem_append, List.mem_singleton]
      rintro c (hc | rfl)
      · exact ih (n / 10) hdiv c hc
      · exact digitChar_isDigit (n % 10) (by omega)

theorem natDigits_ne_nil (n : Nat) : natDigits n ≠ [] := by
  rw [natDigits_eq]
  split <;> simp

theorem digRest_all (s : Str) (h : ∀ c ∈ s, isDigit c = true) :
    digRest s = true := by
  induction s with
  | nil => rfl
  | cons c cs ih =>
    have hc := h c (by simp)
    have hne : c ≠ '_' := isDigit_ne_of hc '_' (by decide)
    rw [digRest.eq_def]
    simp [hne, hc, ih (fun c hc => h c (by simp [hc]))]

theorem digRun_natDigits (n : Nat) : digRun (natDigits n) = true := by
  cases hd : natDigits n with
  | nil => exact absurd hd (natDigits_ne_nil n)
  | cons c cs =>
    have hall : ∀ x ∈ c :: cs, isDigit x = true := hd ▸ natDigits_digit n
    simp only [digRun]
    simp [hall c (by simp), digRest_all cs (fun x hx => hall x (by simp [hx]))]

theorem digValue_append_digit (s : Str) (c : Char) (hc : c ≠ '_') :
    digValue (s ++ [c]) = digValue s * 10 + (c.toNat - '0'.toNat) := by
  unfold digValue
  rw [List.foldl_append]
  simp [hc]

theorem digValue_singleton (c : Char) (hc : c ≠ '_') :
    digValue [c] = c.toNat - '0'.toNat := by
  show (if c = '_' then 0 else 0 * 10 + (c.toNat - '0'.toNat)) = _
  rw [if_neg hc, Nat.zero_mul, Nat.zero_add]

theorem digValue_natDigits (n : Nat) : digValue (natDigits n) = n := by
  induction n using Nat.strong_induction_on with
  | _ n ih =>
    rw [natDigits_eq]
    by_cases h10 : n < 10
    · rw [if_pos h10,
        digValue_singleton _ (isDigit_ne_of (digitChar_isDigit n h10) '_' (by decide)),
        digitChar_toNat n h10]
    · have hdiv : n / 10 < n := Nat.div_lt_self (by omega) (by omega)
      rw [if_neg h10, digValue_append_digit _ _
          (isDigit_ne_of (digitChar_isDigit (n % 10) (by omega)) '_' (by decide)),
        ih (n / 10) hdiv, digitChar_toNat (n % 10) (by omega)]
      omega

theorem intRepr_chars (i : Int) :
    ∀ c ∈ intRepr i, isDigit c = true ∨ c = '-' := by
  unfold intRepr
  split
  · simp only [List.mem_cons]
    rintro c (rfl | hc)
    · exact Or.inr rfl
    · exact Or.inl (natDigits_digit _ c hc)
  · exact fun c hc => Or.inl (natDigits_digit _ c hc)

theorem intRepr_no_ws (i : Int) : ∀ c ∈ intRepr i, isWs c = false := by
  intro c hc
  rcases intRepr_chars i c hc with h | rfl
  · exact digit_not_ws h
  · decide

theorem intRepr_no_semi (i : Int) : ∀ c ∈ intRepr i, c ≠ ';' := by
  intro c hc
  rcases intRepr_chars i c hc with h | rfl
  · exact isDigit_ne_of h ';' (by decide)
  · decide

theorem intRepr_no_nl (i : Int) : ∀ c ∈ intRepr i, c ≠ '\n' := by
  intro c hc
  rcases intRepr_chars i c hc with h | rfl
  · exact isDigit_ne_of h '\n' (by decide)
  · decide

theorem intRepr_ne_nil (i : Int) : intRepr i ≠ [] := by
  unfold intRepr
  split
  · simp
  · exact natDigits_ne_nil _

theorem pyInt_intRepr (i : Int) : pyInt (intRepr i) = some i := by
  unfold pyInt
  rw [pyStrip_no_ws _ (intRepr_no_ws i)]
  by_cases hneg : i < 0
  · have hrep : intRepr i = '-' :: natDigits i.natAbs := by
      unfold intRepr
      simp [hneg]
    rw [hrep]
    simp only [digRun_natDigits, if_pos rfl, if_true]
    rw [digValue_natDigits]
    congr 1
    omega
  · have hrep : intRepr i = natDigits i.toNat := by
      unfold intRepr
      simp [hneg]
    rw [hrep]
    cases hd : natDigits i.toNat with
    | nil => exact absurd hd (natDigits_ne_nil _)
    | cons c cs =>
      have hcd : isDigit c = true := by
        have := natDigits_digit i.toNat c (by rw [hd]; simp)
        exact this
      have h1 : c ≠ '-' := isDigit_ne_of hcd '-' (by decide)
      have h2 : c ≠ '+' := isDigit_ne_of hcd '+' (by decide)
      have hrun : digRun (c :: cs) = true := hd ▸ digRun_natDigits i.toNat
      simp only [if_neg h1, if_neg h2, hrun, if_true]
      rw [← hd, digValue_natDigits]
      congr 1
      omega

/-! ### Encode/Decode round trip -/

theorem stripRight_of_noTrailWs (s : Str) (h : noTrailWs s = true) :
    stripRight s = s := by
  unfold noTrailWs at h
  unfold stripRight
  cases hr : s.reverse with
  | nil =>
    have hs : s = [] := List.reverse_eq_nil_iff.mp hr
    simp [hs]
  | cons c t =>
    rw [hr] at h
    simp only [Bool.not_eq_true'] at h
    rw [List.dropWhile_cons, if_neg (by simp [h]), ← hr, List.reverse_reverse]

theorem noSemi_iff (s : Str) (h : noSemi s = true) : ∀ c ∈ s, c ≠ ';' := by
  intro c hc
  have := List.all_eq_true.mp h c hc
  simpa using this

theorem to_string_decomp (b : Book) (suf : Str) :
    b.to_string ++ suf =
      intRepr b.id ++ ';' :: (b.title ++ ';' :: (b.author
        ++ ';' :: (intRepr b.year ++ ';' :: (b.status ++ suf)))) := by
  unfold Book.to_string
  simp [List.append_assoc]

theorem pyStrip_intRepr_head (i : Int) (rest : Str) :
    pyStrip (intRepr i ++ ';' :: rest) = intRepr i ++ ';' :: stripRight rest := by
  unfold pyStrip
  cases hi : intRepr i with
  | nil => exact absurd hi (intRepr_ne_nil i)
  | cons c cs =>
    have hcw : isWs c = false := intRepr_no_ws i c (by rw [hi]; simp)
    rw [List.cons_append, List.dropWhile_cons, if_neg (by simp [hcw]),
      ← List.cons_append, stripRight_append (c :: cs) (by decide) rest]

theorem pySplit_to_string (b : Book) (suf : Str)
    (ht : ∀ c ∈ b.title, c ≠ ';') (ha : ∀ c ∈ b.author, c ≠ ';')
    (hs : ∀ c ∈ b.status, c ≠ ';')
    (hst : stripRight (b.status ++ suf) = b.status) :
    pySplit ';' (pyStrip (b.to_string ++ suf)) =
      [intRepr b.id, b.title, b.author, intRepr b.year, b.status] := by
  rw [to_string_decomp, pyStrip_intRepr_head,
    show b.title ++ ';' :: (b.author ++ ';' :: (intRepr b.year ++ ';' :: (b.status ++ suf)))
        = (b.title ++ ';' :: (b.author ++ ';' :: intRepr b.year)) ++ ';' :: (b.status ++ suf) by
      simp,
    stripRight_append _ (by decide) _, hst,
    show (b.title ++ ';' :: (b.author ++ ';' :: intRepr b.year)) ++ ';' :: b.status
        = b.title ++ ';' :: (b.author ++ ';' :: (intRepr b.year ++ ';' :: b.status)) by simp,
    pySplit_append_sep ';' _ _ (intRepr_no_semi b.id),
    pySplit_append_sep ';' _ _ ht,
    pySplit_append_sep ';' _ _ ha,
    pySplit_append_sep ';' _ _ (intRepr_no_semi b.year),
    pySplit_no_sep ';' _ hs]

theorem from_string_to_string_suf (b : Book) (suf : Str)
    (ht : ∀ c ∈ b.title, c ≠ ';') (ha : ∀ c ∈ b.author, c ≠ ';')
    (hs : ∀ c ∈ b.status, c ≠ ';')
    (hst : stripRight (b.status ++ suf) = b.status) :
    Book.from_string (b.to_string ++ suf) = .ok b := by
  unfold Book.from_string
  rw [pySplit_to_string b suf ht ha hs hst]
  simp [pyInt_intRepr]

theorem from_string_to_string (b : Book)
    (ht : noSemi b.title = true) (ha : noSemi b.author = true)
    (hs : noSemi b.status = true) (hst : noTrailWs b.status = true) :
    Book.from_string b.to_string = .ok b := by
  have := from_string_to_string_suf b [] (noSemi_iff _ ht) (noSemi_iff _ ha)
    (noSemi_iff _ hs) (by simpa using stripRight_of_noTrailWs _ hst)
  simpa using this

theorem from_string_to_string_nl (b : Book)
    (ht : noSemi b.title = true) (ha : noSemi b.author = true)
    (hs : noSemi b.status = true) (hst : noTrailWs b.status = true) :
    Book.from_string (b.to_string ++ ['\n']) = .ok b := by
  refine from_string_to_string_suf b ['\n'] (noSemi_iff _ ht) (noSemi_iff _ ha)
    (noSemi_iff _ hs) ?_
  rw [stripRight_append_ws _ _ (by decide)]
  exact stripRight_of_noTrailWs _ hst

theorem from_string_ok_head (s : Str) (b : Book)
    (h : Book.from_string s = .ok b) :
    ∃ p0 ps, pySplit ';' (pyStrip s) = p0 :: ps ∧ pyInt p0 = some b.id := by
  unfold Book.from_string at h
  cases hsp : pySplit ';' (pyStrip s) with
  | nil => exact absurd hsp (pySplit_ne_nil ';' (pyStrip s))
  | cons p0 rest =>
    rw [hsp] at h
    refine ⟨p0, rest, rfl, ?_⟩
    match rest with
    | [] => simp at h
    | [_] => simp at h
    | [_, _] => simp at h
    | [_, _, _] =>
      cases hp0 : pyInt p0 <;> cases hp3 : pyInt (rest.getD 3 []) <;> simp_all
    | p1 :: p2 :: p3 :: p4 :: tl =>
      cases hp0 : pyInt p0 with
      | none => simp [hp0] at h
      | some i =>
        cases hp3 : pyInt p3 with
        | none => simp [hp0, hp3] at h
        | some y =>
          simp only [hp0, hp3] at h
          injection h with hb
          rw [← hb]

/-! ### File lines -/

theorem noNL_cons {c : Char} {cs : Str} (h : noNL (c :: cs) = true) :
    ¬(c = '\n') ∧ noNL cs = true := by
  unfold noNL at h ⊢
  simp only [List.all_cons, Bool.and_eq_true] at h
  exact ⟨by simpa using h.1, h.2⟩

theorem pyLines_line (l rest : Str) (hl : noNL l = true) :
    pyLines ((l ++ ['\n']) ++ rest) = (l ++ ['\n']) :: pyLines rest := by
  induction l with
  | nil => simp [pyLines]
  | cons c cs ih =>
    obtain ⟨hc, hcs⟩ := noNL_cons hl
    have ih' := ih hcs
    simp only [List.cons_append, pyLines, List.append_eq]
    rw [if_neg hc, ih']

theorem pyLines_flatten (lines : List Str) (h : ∀ l ∈ lines, noNL l = true) :
    pyLines ((lines.map (· ++ ['\n'])).flatten) = lines.map (· ++ ['\n']) := by
  induction lines with
  | nil => rfl
  | cons l ls ih =>
    simp only [List.map_cons, List.flatten_cons]
    rw [pyLines_line l _ (h l (by simp)), ih (fun x hx => h x (by simp [hx]))]

/-! ### `generate_id` correctness -/

theorem genLoop_spec (used : List Int) : ∀ (fuel : Nat) (n : Int),
    (∃ k : Nat, k < fuel ∧ (n + k) ∉ used) →
    genLoop used fuel n ∉ used ∧ n ≤ genLoop used fuel n ∧
      ∀ m : Int, n ≤ m → m ∉ used → genLoop used fuel n ≤ m := by
  intro fuel
  induction fuel with
  | zero => rintro n ⟨k, hk, -⟩; omega
  | succ f ih =>
    rintro n ⟨k, hk, hkn⟩
    by_cases hn : n ∈ used
    · have hk0 : k ≠ 0 := by
        rintro rfl
        exact hkn (by simpa using hn)
      obtain ⟨k', rfl⟩ : ∃ k', k = k' + 1 := ⟨k - 1, by omega⟩
      have hex : ∃ k2 : Nat, k2 < f ∧ ((n + 1) + k2) ∉ used := by
        refine ⟨k', by omega, ?_⟩
        convert hkn using 2
        push_cast
        ring
      obtain ⟨h1, h2, h3⟩ := ih (n + 1) hex
      rw [genLoop, if_pos hn]
      refine ⟨h1, by omega, fun m hm hmu => ?_⟩
      have hmn : m ≠ n := fun he => hmu (he ▸ hn)
      exact h3 m (by omega) hmu
    · rw [genLoop, if_neg hn]
      exact ⟨hn, le_refl n, fun m hm _ => hm⟩

theorem exists_unused (used : List Int) :
    ∃ k : Nat, k < used.length + 1 ∧ ((1 : Int) + k) ∉ used := by
  by_contra hcon
  push_neg at hcon
  have hsub : (Finset.range (used.length + 1)).image (fun k : Nat => (1 + k : Int))
      ⊆ used.toFinset := by
    intro x hx
    simp only [Finset.mem_image, Finset.mem_range] at hx
    obtain ⟨k, hk, rfl⟩ := hx
    exact List.mem_toFinset.mpr (hcon k hk)
  have hcard := Finset.card_le_card hsub
  rw [Finset.card_image_of_injective _ (fun a b hab => by omega),
    Finset.card_range] at hcard
  have := used.toFinset_card_le
  omega

theorem generate_id_spec (books : List Book) :
    1 ≤ generate_id books ∧ generate_id books ∉ books.map (·.id) ∧
      ∀ m : Int, 1 ≤ m → m ∉ books.map (·.id) → generate_id books ≤ m := by
  unfold generate_id
  have hex := exists_unused (books.map (·.id))
  rw [List.length_map] at hex
  obtain ⟨h1, h2, h3⟩ := genLoop_spec (books.map (·.id)) (books.length + 1) 1 hex
  exact ⟨h2, h1, h3⟩

/-! ### Small operation lemmas -/

theorem eraseFirstId_sublist (i : Int) (l : List Book) :
    List.Sublist (eraseFirstId i l) l := by
  induction l with
  | nil => simp [eraseFirstId]
  | cons b bs ih =>
    by_cases hb : b.id = i
    · simp only [eraseFirstId, if_pos hb]
      exact List.sublist_cons_self b bs
    · simp only [eraseFirstId, if_neg hb]
      exact ih.cons₂ b

theorem setStatusFirst_map_id (i : Int) (ns : Str) (l : List Book) :
    (setStatusFirst i ns l).map (·.id) = l.map (·.id) := by
  induction l with
  | nil => rfl
  | cons b bs ih =>
    by_cases hb : b.id = i <;> simp [setStatusFirst, hb, ih]

theorem setStatusFirst_mem (i : Int) (ns : Str) (l : List Book) :
    ∀ b ∈ setStatusFirst i ns l,
      b ∈ l ∨ ∃ b0 ∈ l, b = { b0 with status := ns } := by
  induction l with
  | nil => simp [setStatusFirst]
  | cons b0 bs ih =>
    intro b hb
    by_cases h0 : b0.id = i
    · simp only [setStatusFirst, if_pos h0] at hb
      rcases List.mem_cons.mp hb with rfl | hbs
      · exact Or.inr ⟨b0, by simp, rfl⟩
      · exact Or.inl (by simp [hbs])
    · simp only [setStatusFirst, if_neg h0] at hb
      rcases List.mem_cons.mp hb with rfl | hbs
      · exact Or.inl (by simp)
      · rcases ih b hbs with h | ⟨b1, hb1, rfl⟩
        · exact Or.inl (by simp [h])
        · exact Or.inr ⟨b1, by simp [hb1], rfl⟩

theorem update_status_state (st : LibState) (i : Int) (c : Str) :
    (update_status st i c).1 = st ∨
      ∃ ns, (ns = statusAvailable ∨ ns = statusIssued) ∧
        (update_status st i c).1 =
          save_data { st with books := setStatusFirst i ns st.books } := by
  unfold update_status
  cases hf : st.books.find? (fun b => b.id == i) with
  | none => exact Or.inl rfl
  | some book =>
    by_cases hc : c = "1".toList ∨ c = "2".toList
    · by_cases hc1 : c = "1".toList
      · by_cases hst : book.status = statusAvailable
        · simp only [if_pos hc, if_pos hc1, if_pos hst]
          exact Or.inl (by simp)
        · simp only [if_pos hc, if_pos hc1, if_neg hst]
          exact Or.inr ⟨statusAvailable, Or.inl rfl, rfl⟩
      · by_cases hst : book.status = statusIssued
        · simp only [if_pos hc, if_neg hc1, if_pos hst]
          exact Or.inl (by simp)
        · simp only [if_pos hc, if_neg hc1, if_neg hst]
          exact Or.inr ⟨statusIssued, Or.inr rfl, rfl⟩
    · simp only [if_neg hc]
      exact Or.inl (by simp)

/-! ### Preservation of the catalog invariant -/

theorem pairwise_lt_of_sorted_nodup (l : List Book)
    (hs : l.Pairwise leB) (hn : (l.map (·.id)).Nodup) :
    l.Pairwise (fun a b => a.id < b.id) := by
  have hne : l.Pairwise (fun a b => a.id ≠ b.id) := List.pairwise_map.mp hn
  exact (hs.and hne).imp (fun h => lt_of_le_of_ne h.1 h.2)

theorem nodup_ids_of_pairwise (l : List Book)
    (hp : l.Pairwise (fun a b => a.id < b.id)) : (l.map (·.id)).Nodup := by
  exact List.pairwise_map.mpr (hp.imp (fun h => ne_of_lt h))

theorem noNL_intRepr (i : Int) : noNL (intRepr i) = true := by
  unfold noNL
  rw [List.all_eq_true]
  intro c hc
  simpa using intRepr_no_nl i c hc

theorem noNL_to_string (b : Book) (hb : cleanBook b = true) :
    noNL b.to_string = true := by
  unfold cleanBook at hb
  simp only [Bool.and_eq_true] at hb
  obtain ⟨⟨ht, ha⟩, hs⟩ := hb
  have h1 := noNL_intRepr b.id
  have h2 := noNL_intRepr b.year
  unfold Book.to_string
  unfold noNL at h1 h2 ht ha hs ⊢
  simp only [List.all_append, List.all_cons, Bool.and_eq_true]
  exact ⟨⟨⟨⟨h1, by decide, ht⟩, by decide, ha⟩, by decide, h2⟩, by decide, hs⟩

theorem inv_add (st : LibState) (t a : Str) (y : Int) (hInv : Inv st)
    (ht : noNL t = true) (ha : noNL a = true) : Inv (add_book st t a y) := by
  obtain ⟨hp, hcl, -⟩ := hInv
  have hadd : add_book st t a y =
      { books := sortBooks (st.books ++ [⟨generate_id st.books, t, a, y, statusAvailable⟩]),
        file := some (saveContent (sortBooks (st.books
          ++ [⟨generate_id st.books, t, a, y, statusAvailable⟩]))) } := rfl
  rw [hadd]
  refine ⟨?_, ?_, Or.inr rfl⟩
  · apply pairwise_lt_of_sorted_nodup
    · exact List.sorted_insertionSort leB _
    · have hperm : List.Perm (sortBooks (st.books ++
          [⟨generate_id st.books, t, a, y, statusAvailable⟩]))
          (st.books ++ [⟨generate_id st.books, t, a, y, statusAvailable⟩]) :=
        List.perm_insertionSort leB _
      rw [(hperm.map (·.id)).nodup_iff, List.map_append]
      refine List.Nodup.append (nodup_ids_of_pairwise _ hp) (by simp) ?_
      intro x hx hx2
      simp only [List.map_cons, List.map_nil, List.mem_singleton] at hx2
      subst hx2
      exact (generate_id_spec st.books).2.1 hx
  · intro b hb
    rw [show sortBooks (st.books ++ [⟨generate_id st.books, t, a, y, statusAvailable⟩])
        = List.insertionSort leB (st.books ++ [⟨generate_id st.books, t, a, y, statusAvailable⟩])
        from rfl, List.mem_insertionSort] at hb
    rcases List.mem_append.mp hb with h | h
    · exact hcl b h
    · simp only [List.mem_singleton] at h
      subst h
      unfold cleanBook
      simp [ht, ha, show noNL statusAvailable = true by decide]

theorem inv_del (st : LibState) (i : Int) (hInv : Inv st) :
    Inv (delete_book st i) := by
  obtain ⟨hp, hcl, hf⟩ := hInv
  unfold delete_book
  cases st.books.find? (fun b => b.id == i) with
  | none => exact ⟨hp, hcl, hf⟩
  | some _ =>
    exact ⟨hp.sublist (eraseFirstId_sublist i st.books),
      fun b hb => hcl b ((eraseFirstId_sublist i st.books).subset hb),
      Or.inr rfl⟩

theorem inv_upd (st : LibState) (i : Int) (c : Str) (hInv : Inv st) :
    Inv (update_status st i c).1 := by
  rcases update_status_state st i c with h | ⟨ns, hns, h⟩
  · rw [h]; exact hInv
  · obtain ⟨hp, hcl, -⟩ := hInv
    rw [h]
    refine ⟨?_, ?_, Or.inr rfl⟩
    · have h1 : ((setStatusFirst i ns st.books).map (·.id)).Pairwise (· < ·) := by
        rw [setStatusFirst_map_id]
        exact List.pairwise_map.mpr hp
      exact List.pairwise_map.mp h1
    · intro b hb
      rcases setStatusFirst_mem i ns st.books b hb with hmem | ⟨b0, hb0, rfl⟩
      · exact hcl b hmem
      · have hc0 := hcl b0 hb0
        unfold cleanBook at hc0 ⊢
        simp only [Bool.and_eq_true] at hc0 ⊢
        refine ⟨hc0.1, ?_⟩
        rcases hns with rfl | rfl <;> decide

theorem inv_apply (st : LibState) (op : Op) (hInv : Inv st)
    (hv : validOp op = true) : Inv (applyOp st op) := by
  cases op with
  | add t a y =>
    unfold validOp at hv
    simp only [Bool.and_eq_true] at hv
    exact inv_add st t a y hInv hv.1 hv.2
  | del i => exact inv_del st i hInv
  | upd i c => exact inv_upd st i c hInv

theorem inv_foldl (ops : List Op) : ∀ st, Inv st →
    (∀ op ∈ ops, validOp op = true) → Inv (ops.foldl applyOp st) := by
  induction ops with
  | nil => exact fun st h _ => h
  | cons op ops ih =>
    intro st h hv
    exact ih _ (inv_apply st op h (hv op (by simp)))
      (fun o ho => hv o (by simp [ho]))

theorem inv_runOps (ops : List Op) (hv : ∀ op ∈ ops, validOp op = true) :
    Inv (runOps ops) :=
  inv_foldl ops initState ⟨by simp [initState], by simp [initState], Or.inl rfl⟩ hv

theorem sortBooks_eq_self (l : List Book)
    (hp : l.Pairwise (fun a b => a.id < b.id)) : sortBooks l = l := by
  unfold sortBooks
  exact List.Sorted.insertionSort_eq (hp.imp (fun h => le_of_lt h))

theorem fileLines_inv (st : LibState) (h : Inv st) :
    fileLines st.file = [] ∨
      fileLines st.file = st.books.map (fun b => b.to_string ++ ['\n']) := by
  obtain ⟨hp, hcl, hf | hf⟩ := h
  · left
    rw [hf]
    rfl
  · right
    rw [hf]
    show pyLines (saveContent st.books) = _
    unfold saveContent saveLines
    rw [sortBooks_eq_self st.books hp,
      show st.books.map (fun b => b.to_string ++ ['\n'])
        = (st.books.map (fun b => b.to_string)).map (· ++ ['\n']) by
          rw [List.map_map]; rfl]
    rw [pyLines_flatten _ ?_]
    intro l hl
    obtain ⟨b, hb, rfl⟩ := List.mem_map.mp hl
    exact noNL_to_string b (hcl b hb)

theorem encoded_line_id (b b' : Book)
    (h : Book.from_string (b.to_string ++ ['\n']) = .ok b') : b'.id = b.id := by
  obtain ⟨p0, ps, hsp, hp0⟩ := from_string_ok_head _ _ h
  rw [to_string_decomp b ['\n'], pyStrip_intRepr_head,
    pySplit_append_sep ';' _ _ (intRepr_no_semi b.id)] at hsp
  injection hsp with h1 h2
  rw [← h1, pyInt_intRepr] at hp0
  injection hp0 with h3
  exact h3.symm

/-! ### Load lemmas -/

theorem mapM_from_string_error (l : List Str)
    (h : ∃ x ∈ l, ∃ e, Book.from_string x = .error e) :
    l.mapM Book.from_string = .error .err := by
  induction l with
  | nil => simp at h
  | cons x xs ih =>
    rw [List.mapM_cons]
    obtain ⟨y, hy, e, he⟩ := h
    rcases List.mem_cons.mp hy with rfl | hmem
    · cases e
      rw [he]
      rfl
    · cases hx : Book.from_string x with
      | error e2 => cases e2; rfl
      | ok bx =>
        rw [ih ⟨y, hmem, e, he⟩]
        rfl

theorem load_data_ok (content : Str) (books : List Book)
    (h : (pyLines content).mapM Book.from_string = .ok books) :
    load_data (some content) = .ok (sortBooks books) := by
  simp only [load_data]
  rw [h]
  rfl

theorem load_data_error (content : Str)
    (h : ∃ l ∈ pyLines content, ∃ e, Book.from_string l = .error e) :
    load_data (some content) = .error .err := by
  simp only [load_data]
  rw [mapM_from_string_error _ h]
  rfl

/-! ## The claims -/

/-- Claim C1: for every sequence of AddBook, DeleteBook and UpdateStatus
operations starting from an empty catalog (with the add inputs newline-free,
as `input()` guarantees), the record ids are pairwise distinct, and after
every operation both the in-memory sequence and the lines of the backing
file are sorted in strictly ascending id order (for the file: any two lines,
in order, decode to books with ascending ids; a missing file has no
lines). -/
theorem claim_c1_invariant (ops : List Op) (hv : ∀ op ∈ ops, validOp op = true) :
    ((runOps ops).books.map (·.id)).Nodup ∧
    (runOps ops).books.Pairwise (fun a b => a.id < b.id) ∧
    (fileLines (runOps ops).file).Pairwise (fun l1 l2 =>
      ∀ b1 b2, Book.from_string l1 = .ok b1 → Book.from_string l2 = .ok b2 →
        b1.id < b2.id) := by
  have hInv := inv_runOps ops hv
  refine ⟨nodup_ids_of_pairwise _ hInv.1, hInv.1, ?_⟩
  rcases fileLines_inv _ hInv with h | h
  · rw [h]
    exact List.Pairwise.nil
  · rw [h, List.pairwise_map]
    exact hInv.1.imp (fun {x y} hxy b1 b2 hb1 hb2 => by
      rw [encoded_line_id x b1 hb1, encoded_line_id y b2 hb2]
      exact hxy)

/-- Witness for claim C1 at a concrete operation sequence. -/
theorem claim_c1_invariant_witness :
    (∀ op ∈ demoOps, validOp op = true) ∧
    (((runOps demoOps).books.map (·.id)).Nodup ∧
     (runOps demoOps).books.Pairwise (fun a b => a.id < b.id) ∧
     (fileLines (runOps demoOps).file).Pairwise (fun l1 l2 =>
       ∀ b1 b2, Book.from_string l1 = .ok b1 → Book.from_string l2 = .ok b2 →
         b1.id < b2.id)) :=
  ⟨by decide, claim_c1_invariant demoOps (by decide)⟩

/-- Counterexample to claim C2 as stated: a status with a trailing space has
no embedded semicolon, yet the strip step of Decode drops the space, so the
round trip does not restore the book. -/
theorem claim_c2_counterexample :
    Book.from_string
        (Book.to_string ⟨1, "t".toList, "a".toList, 2000, "s ".toList⟩)
      = .ok ⟨1, "t".toList, "a".toList, 2000, "s".toList⟩ ∧
    (⟨1, "t".toList, "a".toList, 2000, "s".toList⟩ : Book)
      ≠ ⟨1, "t".toList, "a".toList, 2000, "s ".toList⟩ := by
  decide

/-- Claim C2 (amended): for every Book whose title, author and status
contain no embedded semicolon AND whose status does not end in whitespace
(the strip step of Decode would drop such a suffix), decoding the encoded
line restores the book field by field. -/
theorem claim_c2_roundtrip (b : Book)
    (ht : noSemi b.title = true) (ha : noSemi b.author = true)
    (hs : noSemi b.status = true) (hw : noTrailWs b.status = true) :
    Book.from_string b.to_string = .ok b :=
  from_string_to_string b ht ha hs hw

/-- Witness for claim C2 (amended) at a concrete book. -/
theorem claim_c2_roundtrip_witness :
    (noSemi "Dune".toList = true ∧ noSemi "Herbert".toList = true ∧
     noSemi statusAvailable = true ∧ noTrailWs statusAvailable = true) ∧
    Book.from_string
        (Book.to_string ⟨1, "Dune".toList, "Herbert".toList, 1965, statusAvailable⟩)
      = .ok ⟨1, "Dune".toList, "Herbert".toList, 1965, statusAvailable⟩ :=
  ⟨⟨by decide, by decide, by decide, by decide⟩,
   claim_c2_roundtrip _ (by decide) (by decide) (by decide) (by decide)⟩

/-- Claim C3: GenerateId returns the smallest positive integer not used as
an id; in particular it returns 3 on ids 1, 2, 4 and 4 on ids 1, 2, 3. -/
theorem claim_c3_generate_id :
    (∀ books : List Book,
      1 ≤ generate_id books ∧ generate_id books ∉ books.map (·.id) ∧
        ∀ m : Int, 1 ≤ m → m ∉ books.map (·.id) → generate_id books ≤ m) ∧
    generate_id demo124 = 3 ∧ generate_id demo123 = 4 :=
  ⟨generate_id_spec, by decide, by decide⟩

/-- Witness for claim C3: the minimality clause applied at the catalog with
ids 1, 2, 4 and candidate 3. -/
theorem claim_c3_generate_id_witness :
    generate_id demo124 ∉ demo124.map (·.id) ∧ generate_id demo124 ≤ 3 :=
  ⟨(claim_c3_generate_id.1 demo124).2.1,
   (claim_c3_generate_id.1 demo124).2.2 3 (by decide) (by decide)⟩

/-- Claim C4: Load of a missing backing file returns the empty list and no
error; if any line of an existing file fails to decode, the failure
propagates out of Load (the whole load fails). -/
theorem claim_c4_load_errors :
    load_data none = .ok [] ∧
    ∀ content : Str,
      (∃ l ∈ pyLines content, ∃ e, Book.from_string l = .error e) →
      load_data (some content) = .error .err :=
  ⟨rfl, fun content h => load_data_error content h⟩

/-- Witness for claim C4: a file whose single line is malformed. -/
theorem claim_c4_load_errors_witness :
    (∃ l ∈ pyLines "xx\n".toList, ∃ e, Book.from_string l = .error e) ∧
    load_data (some "xx\n".toList) = .error .err :=
  ⟨⟨"xx\n".toList, by decide, .err, by decide⟩,
   claim_c4_load_errors.2 "xx\n".toList ⟨"xx\n".toList, by decide, .err, by decide⟩⟩

/-- Counterexample to claim C5 as stated: the code decodes every line, with
no non-empty filter; a file consisting of one whitespace-only line (which
strips to the empty string) makes the whole load fail instead of being
skipped. -/
theorem claim_c5_counterexample :
    pyLines "\n".toList = ["\n".toList] ∧ pyStrip "\n".toList = [] ∧
    load_data (some "\n".toList) = .error .err := by
  decide

/-- Claim C5 (amended): Load decodes every line of the backing file, blank
or not; when every line decodes it returns the decoded books sorted
ascending by id, and when any line (including an empty or whitespace-only
one) fails to decode the whole load fails. -/
theorem claim_c5_load_all_lines :
    (∀ (content : Str) (books : List Book),
      (pyLines content).mapM Book.from_string = .ok books →
      load_data (some content) = .ok (sortBooks books) ∧
        (sortBooks books).Pairwise leB ∧ List.Perm (sortBooks books) books) ∧
    (∀ content : Str,
      (∃ l ∈ pyLines content, ∃ e, Book.from_string l = .error e) →
      load_data (some content) = .error .err) := by
  constructor
  · intro content books h
    exact ⟨load_data_ok content books h, List.sorted_insertionSort leB books,
      List.perm_insertionSort leB books⟩
  · exact fun content h => load_data_error content h

/-- Witness for claim C5 (amended) on a two-line file stored out of id
order. -/
theorem claim_c5_load_all_lines_witness :
    ((pyLines "2;t;a;5;s\n1;u;b;6;r\n".toList).mapM Book.from_string
      = .ok [⟨2, "t".toList, "a".toList, 5, "s".toList⟩,
             ⟨1, "u".toList, "b".toList, 6, "r".toList⟩]) ∧
    (load_data (some "2;t;a;5;s\n1;u;b;6;r\n".toList)
      = .ok (sortBooks [⟨2, "t".toList, "a".toList, 5, "s".toList⟩,
                        ⟨1, "u".toList, "b".toList, 6, "r".toList⟩]) ∧
     (sortBooks [⟨2, "t".toList, "a".toList, 5, "s".toList⟩,
                 ⟨1, "u".toList, "b".toList, 6, "r".toList⟩]).Pairwise leB ∧
     List.Perm
       (sortBooks [⟨2, "t".toList, "a".toList, 5, "s".toList⟩,
                   ⟨1, "u".toList, "b".toList, 6, "r".toList⟩])
       [⟨2, "t".toList, "a".toList, 5, "s".toList⟩,
        ⟨1, "u".toList, "b".toList, 6, "r".toList⟩]) :=
  ⟨by decide, claim_c5_load_all_lines.1 _ _ (by decide)⟩

/-- Claim C6: Decode strips the line, splits it on semicolons, and succeeds
exactly when there are at least 5 parts and part 0 and part 3 parse as
integers (equivalently, it fails exactly when there are fewer than 5 parts
or the id or year part is not a valid integer); on exactly 5 parts with
valid integers it returns the corresponding Book. -/
theorem claim_c6_decode (s : Str) :
    ((∃ b, Book.from_string s = .ok b) ↔
      (5 ≤ (pySplit ';' (pyStrip s)).length ∧
       (pyInt ((pySplit ';' (pyStrip s)).getD 0 [])).isSome = true ∧
       (pyInt ((pySplit ';' (pyStrip s)).getD 3 [])).isSome = true)) ∧
    (∀ p0 p1 p2 p3 p4 i y, pySplit ';' (pyStrip s) = [p0, p1, p2, p3, p4] →
      pyInt p0 = some i → pyInt p3 = some y →
      Book.from_string s = .ok ⟨i, p1, p2, y, p4⟩) := by
  have hne := pySplit_ne_nil ';' (pyStrip s)
  constructor
  · unfold Book.from_string
    cases hsp : pySplit ';' (pyStrip s) with
    | nil => exact absurd hsp hne
    | cons p0 rest =>
      match rest with
      | [] => simp
      | [p1] => simp
      | [p1, p2] => simp
      | [p1, p2, p3] => simp
      | p1 :: p2 :: p3 :: p4 :: tl =>
        cases hp0 : pyInt p0 with
        | none => simp [hp0]
        | some i =>
          cases hp3 : pyInt p3 with
          | none => simp [hp0, hp3]
          | some y =>
            simp only [hp0, hp3, List.getD_cons_succ, List.getD_cons_zero,
              Option.isSome_some, List.length_cons, and_true, true_and]
            constructor
            · intro
              omega
            · intro
              exact ⟨⟨i, p1, p2, y, p4⟩, rfl⟩
  · intro p0 p1 p2 p3 p4 i y hsp hp0 hp3
    unfold Book.from_string
    rw [hsp]
    simp [hp0, hp3]

/-- Witness for claim C6: the success clause at a concrete well-formed
line. -/
theorem claim_c6_decode_witness :
    Book.from_string "1;t;a;2;s".toList
      = .ok ⟨1, "t".toList, "a".toList, 2, "s".toList⟩ :=
  (claim_c6_decode "1;t;a;2;s".toList).2 "1".toList "t".toList "a".toList
    "2".toList "s".toList 1 2 (by decide) (by decide) (by decide)

/-- Claim C7: UpdateStatus with a selector that maps to the record's current
status reports a no-op and leaves both the record list and the backing file
exactly as they were; a selector outside the two recognized choices likewise
changes nothing and performs no save. -/
theorem claim_c7_noop (st : LibState) (i : Int) (choice : Str) :
    (∀ b, st.books.find? (fun x => x.id == i) = some b →
      ((choice = "1".toList ∧ b.status = statusAvailable) ∨
       (choice = "2".toList ∧ b.status = statusIssued)) →
      update_status st i choice = (st, .noop)) ∧
    (choice ≠ "1".toList → choice ≠ "2".toList →
      (update_status st i choice).1 = st ∧
        (update_status st i choice).2 ≠ .updated) := by
  constructor
  · intro b hb hcase
    unfold update_status
    simp only [hb]
    rcases hcase with ⟨rfl, hst⟩ | ⟨rfl, hst⟩
    · simp [hst]
    · simp [hst]
  · intro h1 h2
    unfold update_status
    cases hf : st.books.find? (fun x => x.id == i) with
    | none => exact ⟨rfl, by simp⟩
    | some book =>
      dsimp only
      rw [if_neg (not_or.mpr ⟨h1, h2⟩)]
      exact ⟨rfl, by simp⟩

/-- Witness for claim C7: a same-status update and a bad selector on a
concrete one-record store. -/
theorem claim_c7_noop_witness :
    update_status demoState 1 "1".toList = (demoState, .noop) ∧
    ((update_status demoState 1 "x".toList).1 = demoState ∧
      (update_status demoState 1 "x".toList).2 ≠ .updated) :=
  ⟨(claim_c7_noop demoState 1 "1".toList).1 demoBook (by decide)
      (Or.inl ⟨rfl, by decide⟩),
   (claim_c7_noop demoState 1 "x".toList).2 (by decide) (by decide)⟩

/-- Claim C8: SearchBooks returns exactly the records whose lowercased
title or author contains the lowercased query as a substring, or whose
year's decimal representation equals the query string exactly, keeping
ascending-id catalog order (the result is a sublist of the catalog, which
it never mutates). -/
theorem claim_c8_search (books : List Book) (query : Str) :
    List.Sublist (search_books books query) books ∧
    (∀ b, b ∈ search_books books query ↔ b ∈ books ∧
      (containsSub (pyLower query) (pyLower b.title) = true ∨
       containsSub (pyLower query) (pyLower b.author) = true ∨
       pyLower query = intRepr b.year)) ∧
    (books.Pairwise (fun a b => a.id < b.id) →
      (search_books books query).Pairwise (fun a b => a.id < b.id)) := by
  refine ⟨List.filter_sublist books, ?_, ?_⟩
  · intro b
    unfold search_books
    rw [List.mem_filter]
    constructor
    · rintro ⟨hb, hmatch⟩
      refine ⟨hb, ?_⟩
      simp only [Bool.or_eq_true, beq_iff_eq] at hmatch
      rcases hmatch with (h | h) | h
      · exact Or.inl h
      · exact Or.inr (Or.inl h)
      · exact Or.inr (Or.inr h)
    · rintro ⟨hb, hmatch⟩
      refine ⟨hb, ?_⟩
      simp only [Bool.or_eq_true, beq_iff_eq]
      rcases hmatch with h | h | h
      · exact Or.inl (Or.inl h)
      · exact Or.inl (Or.inr h)
      · exact Or.inr h
  · intro hp
    exact hp.sublist (List.filter_sublist books)

/-- Witness for claim C8: the order-preservation clause at the spec's
year-search scenario. -/
theorem claim_c8_search_witness :
    demoSearchBooks.Pairwise (fun a b => a.id < b.id) ∧
    (search_books demoSearchBooks "1965".toList).Pairwise
      (fun a b => a.id < b.id) :=
  ⟨by decide, (claim_c8_search demoSearchBooks "1965".toList).2.2 (by decide)⟩

/-- Counterexample to claim C9 as stated: an explicitly supplied empty
subset is not rendered as an empty listing; `books or self.books` falls
back to the full catalog, which is rendered instead. -/
theorem claim_c9_counterexample :
    display_books [demoBook] (some []) = .shown [demoBook] ∧
    DispOut.shown [demoBook] ≠ DispOut.shown ([] : List Book) := by
  decide

/-- Claim C9 (amended): ListBooks renders exactly the caller-supplied
subset when that subset is nonempty and renders the full catalog when no
subset is supplied; a supplied EMPTY subset also falls back to rendering
the full catalog (the `or` default); the catalog-is-empty notice appears
precisely when the full catalog has zero records; nothing is mutated. -/
theorem claim_c9_display (self : List Book) (arg : Option (List Book))
    (hsub : ∀ bs, arg = some bs → ∀ b ∈ bs, b ∈ self) :
    (∀ bs, arg = some bs → bs ≠ [] → display_books self arg = .shown bs) ∧
    ((arg = none ∨ arg = some []) →
      display_books self arg = if self = [] then .emptyNote else .shown self) ∧
    (display_books self arg = .emptyNote ↔ self = []) := by
  refine ⟨?_, ?_, ?_⟩
  · rintro bs rfl hne
    unfold display_books
    simp [hne]
  · rintro (rfl | rfl) <;> unfold display_books <;> simp
  · constructor
    · intro h
      unfold display_books at h
      cases arg with
      | none =>
        by_cases hs : self = []
        · exact hs
        · simp [hs] at h
      | some bs =>
        by_cases hbs : bs = []
        · subst hbs
          by_cases hs : self = []
          · exact hs
          · simp [hs] at h
        · simp [hbs] at h
    · intro hs
      subst hs
      unfold display_books
      cases arg with
      | none => simp
      | some bs =>
        have hbs : bs = [] := by
          cases bs with
          | nil => rfl
          | cons b bs2 => exact absurd (hsub _ rfl b (by simp)) (by simp)
        subst hbs
        simp

/-- Witness for claim C9 (amended): a nonempty subset of a one-record
catalog is rendered as itself, and the empty notice does not appear. -/
theorem claim_c9_display_witness :
    display_books [demoBook] (some [demoBook]) = .shown [demoBook] ∧
    (display_books [demoBook] (some [demoBook]) = .emptyNote ↔
      ([demoBook] : List Book) = []) :=
  ⟨(claim_c9_display [demoBook] (some [demoBook])
      (fun bs heq => by cases heq; exact fun b hb => hb)).1
      [demoBook] rfl (by decide),
   (claim_c9_display [demoBook] (some [demoBook])
      (fun bs heq => by cases heq; exact fun b hb => hb)).2.2⟩

/-- Claim C10: Decode performs no validation of the status field; a line
whose fifth part is an arbitrary semicolon-free, newline-free string with
no trailing whitespace — in particular one that is neither of the two
recognized labels — decodes successfully to a Book carrying that string,
and Load accepts a file containing such a line into the catalog. -/
theorem claim_c10_status_not_validated (s : Str)
    (hsemi : noSemi s = true) (hnl : noNL s = true) (hw : noTrailWs s = true)
    (_h1 : s ≠ statusAvailable) (_h2 : s ≠ statusIssued) :
    Book.from_string ("7;T;A;1999;".toList ++ s)
      = .ok ⟨7, "T".toList, "A".toList, 1999, s⟩ ∧
    load_data (some (("7;T;A;1999;".toList ++ s) ++ ['\n']))
      = .ok [⟨7, "T".toList, "A".toList, 1999, s⟩] := by
  have henc : "7;T;A;1999;".toList ++ s
      = Book.to_string ⟨7, "T".toList, "A".toList, 1999, s⟩ := by
    unfold Book.to_string
    rw [show intRepr 7 = ['7'] by decide,
      show intRepr 1999 = ['1', '9', '9', '9'] by decide]
    rfl
  have hclean : cleanBook ⟨7, "T".toList, "A".toList, 1999, s⟩ = true := by
    unfold cleanBook
    simp only [Bool.and_eq_true]
    exact ⟨⟨by decide, by decide⟩, hnl⟩
  constructor
  · rw [henc]
    exact from_string_to_string ⟨7, "T".toList, "A".toList, 1999, s⟩
      (show noSemi "T".toList = true by decide)
      (show noSemi "A".toList = true by decide) hsemi hw
  · rw [henc]
    simp only [load_data]
    have hline : pyLines (Book.to_string ⟨7, "T".toList, "A".toList, 1999, s⟩
        ++ ['\n'])
        = [Book.to_string ⟨7, "T".toList, "A".toList, 1999, s⟩ ++ ['\n']] := by
      have := pyLines_line (Book.to_string ⟨7, "T".toList, "A".toList, 1999, s⟩)
        [] (noNL_to_string _ hclean)
      simpa using this
    rw [hline, List.mapM_cons,
      from_string_to_string_nl ⟨7, "T".toList, "A".toList, 1999, s⟩
        (show noSemi "T".toList = true by decide)
        (show noSemi "A".toList = true by decide) hsemi hw]
    rfl

/-- Witness for claim C10 at the status string "damaged". -/
theorem claim_c10_status_not_validated_witness :
    (noSemi "damaged".toList = true ∧ noNL "damaged".toList = true ∧
     noTrailWs "damaged".toList = true ∧ "damaged".toList ≠ statusAvailable ∧
     "damaged".toList ≠ statusIssued) ∧
    Book.from_string ("7;T;A;1999;".toList ++ "damaged".toList)
      = .ok ⟨7, "T".toList, "A".toList, 1999, "damaged".toList⟩ :=
  ⟨⟨by decide, by decide, by decide, by decide, by decide⟩,
   (claim_c10_status_not_validated "damaged".toList (by decide) (by decide)
     (by decide) (by decide) (by decide)).1⟩

end LibraryApp

